import Mathlib

/-!
Verification of the modular-binomials factor solver (`second_challenge.py`).

The development shallowly embeds the three arithmetic functions of the
source file — `extended_gcd`, `mod_inverse` and `solve_for_primes` — as
executable Lean functions over `Nat` (with `Int` for the Bézout
coefficients and the subtraction `(term1 - term2) % N`, which Python
performs over signed integers).  Python's `%` on a signed value with a
positive modulus is Euclidean remainder, i.e. Lean's `Int.emod`, and
Python's `//` on non-negative values is `Nat` division.  Exceptions
(`mod_inverse` raising when no inverse exists, caught by the solver's
`try`/`except` blocks) are modelled with `Option`.
-/

namespace ModularBinomials

/-- Fuel-indexed implementation of the source's recursive `extended_gcd`
(lines 22-28).  The fuel only bounds the recursion depth; with fuel
`a + 1` the recursion `(a, b) ↦ (b % a, a)` never exhausts it, and
`extended_gcd_zero`/`extended_gcd_pos` below prove that `extended_gcd`
satisfies exactly the source's defining equations. -/
def egcdFuel : Nat → Nat → Nat → Nat × Int × Int
  | 0, _, b => (b, 0, 1)
  | fuel + 1, a, b =>
    if a = 0 then (b, 0, 1)
    else
      let r := egcdFuel fuel (b % a) a
      (r.1, r.2.2 - ((b / a : Nat) : Int) * r.2.1, r.2.1)

/-- `extended_gcd(a, b)` from the source: returns `(g, x, y)` with
`g = gcd(a, b)` and `a*x + b*y = g`. -/
def extended_gcd (a b : Nat) : Nat × Int × Int := egcdFuel (a + 1) a b

/-- `mod_inverse(a, m)` from the source (lines 30-36): `none` models the
raised `Exception('Modular inverse does not exist')`; otherwise the
result is Python's `x % m` with `x` the Bézout coefficient of `a`. -/
def mod_inverse (a m : Nat) : Option Nat :=
  let r := extended_gcd a m
  if r.1 ≠ 1 then none
  else some ((r.2.1 % (m : Int)).toNat)

/-- The stage-1 candidate of `solve_for_primes` (source lines 69-87):
`gcd((term1 - term2) % N, N)` computed from the inverses of the
a-coefficients 2 and 5. -/
def stage1_candidate (N e1 e2 c1 c2 a1_inv a2_inv : Nat) : Nat :=
  let a2_neg_power := a2_inv ^ ((e2 * e1) % (N - 1)) % N
  let a1_neg_power := a1_inv ^ ((e1 * e2) % (N - 1)) % N
  let c2_power := c2 ^ e1 % N
  let c1_power := c1 ^ e2 % N
  let term1 := (a2_neg_power * c2_power) % N
  let term2 := (a1_neg_power * c1_power) % N
  Nat.gcd (((term1 : Int) - (term2 : Int)) % (N : Int)).toNat N

/-- The alternate-stage candidate (source lines 132-138), identical
algebra with the b-coefficients 3 and 7; `c1_power`/`c2_power` are the
same values the solver computed in stage 1. -/
def alt_candidate (N e1 e2 c1 c2 b1_inv b2_inv : Nat) : Nat :=
  let b2_neg_power := b2_inv ^ ((e2 * e1) % (N - 1)) % N
  let b1_neg_power := b1_inv ^ ((e1 * e2) % (N - 1)) % N
  let c2_power := c2 ^ e1 % N
  let c1_power := c1 ^ e2 % N
  let term1 := (b2_neg_power * c2_power) % N
  let term2 := (b1_neg_power * c1_power) % N
  Nat.gcd (((term1 : Int) - (term2 : Int)) % (N : Int)).toNat N

/-- The acceptance check of the alternate stage (source lines 140-148):
accept `p_candidate` when it exceeds 1, divides `N`, and the product
check passes; otherwise fall through to `return None, None`. -/
def alt_check (N p_candidate : Nat) : Option (Nat × Nat) :=
  if 1 < p_candidate ∧ N % p_candidate = 0 ∧ p_candidate * (N / p_candidate) = N then
    some (p_candidate, N / p_candidate)
  else none

/-- The alternate-coefficient stage of `solve_for_primes` (source lines
128-151): its `try` block can only fail inside `mod_inverse`, so a
`none` from either inverse lands in the `except` handler and falls
through to `return None, None`. -/
def solve_alt_stage (N e1 e2 c1 c2 : Nat) : Option (Nat × Nat) :=
  match mod_inverse 3 N, mod_inverse 7 N with
  | some b1_inv, some b2_inv =>
    alt_check N (alt_candidate N e1 e2 c1 c2 b1_inv b2_inv)
  | _, _ => none

/-- Control flow of `solve_for_primes` after `q_candidate` is computed
(source lines 90-153).  Stage 1 returns `(N // q_candidate, q_candidate)`
when `q_candidate > 1`, `N % q_candidate == 0` and the product check
passes; otherwise the swap stage returns `(q_candidate, N // q_candidate)`
when its product check passes; otherwise the alternate stage runs. -/
def solve_tail (N e1 e2 c1 c2 q_candidate : Nat) : Option (Nat × Nat) :=
  if 1 < q_candidate ∧ N % q_candidate = 0 ∧ (N / q_candidate) * q_candidate = N then
    some (N / q_candidate, q_candidate)
  else if q_candidate * (N / q_candidate) = N then
    some (q_candidate, N / q_candidate)
  else
    solve_alt_stage N e1 e2 c1 c2

/-- `solve_for_primes(N, e1, e2, c1, c2)` from the source (lines 38-153).
`none` models the `return None, None` paths.  A `mod_inverse` failure on
coefficient 2 or 5 is caught by the `try`/`except` of lines 58-63 and
returns `(None, None)` at once, reaching no later stage. -/
def solve_for_primes (N e1 e2 c1 c2 : Nat) : Option (Nat × Nat) :=
  match mod_inverse 2 N, mod_inverse 5 N with
  | some a1_inv, some a2_inv =>
    solve_tail N e1 e2 c1 c2 (stage1_candidate N e1 e2 c1 c2 a1_inv a2_inv)
  | _, _ => none

/-! ### Defining equations of `extended_gcd` -/

theorem egcdFuel_congr : ∀ a : Nat, ∀ f1 f2 b : Nat, a < f1 → a < f2 →
    egcdFuel f1 a b = egcdFuel f2 a b := by
  intro a
  induction a using Nat.strong_induction_on with
  | _ a ih =>
    intro f1 f2 b h1 h2
    cases f1 with
    | zero => omega
    | succ f1 =>
      cases f2 with
      | zero => omega
      | succ f2 =>
        by_cases ha : a = 0
        · subst ha; simp [egcdFuel]
        · have hlt : b % a < a := Nat.mod_lt _ (Nat.pos_of_ne_zero ha)
          simp only [egcdFuel, if_neg ha]
          rw [ih (b % a) hlt f1 f2 a (by omega) (by omega)]

theorem extended_gcd_zero (b : Nat) : extended_gcd 0 b = (b, 0, 1) := rfl

theorem extended_gcd_pos (a b : Nat) (ha : a ≠ 0) :
    extended_gcd a b =
      ((extended_gcd (b % a) a).1,
       (extended_gcd (b % a) a).2.2
         - ((b / a : Nat) : Int) * (extended_gcd (b % a) a).2.1,
       (extended_gcd (b % a) a).2.1) := by
  have hlt : b % a < a := Nat.mod_lt _ (Nat.pos_of_ne_zero ha)
  show egcdFuel (a + 1) a b = _
  simp only [egcdFuel, if_neg ha]
  rw [egcdFuel_congr (b % a) a (b % a + 1) a hlt (Nat.lt_succ_self _)]
  rfl

/-- The first component of `extended_gcd` is the gcd of its arguments. -/
theorem extended_gcd_fst : ∀ a b : Nat, (extended_gcd a b).1 = Nat.gcd a b := by
  intro a
  induction a using Nat.strong_induction_on with
  | _ a ih =>
    intro b
    by_cases ha : a = 0
    · subst ha; rw [extended_gcd_zero]; simp
    · rw [extended_gcd_pos a b ha]
      have hlt : b % a < a := Nat.mod_lt _ (Nat.pos_of_ne_zero ha)
      show (extended_gcd (b % a) a).1 = Nat.gcd a b
      rw [ih (b % a) hlt a, Nat.gcd_rec a b]

/-- Bézout identity for `extended_gcd`. -/
theorem extended_gcd_bezout : ∀ a b : Nat,
    (a : Int) * (extended_gcd a b).2.1 + (b : Int) * (extended_gcd a b).2.2
      = ((extended_gcd a b).1 : Int) := by
  intro a
  induction a using Nat.strong_induction_on with
  | _ a ih =>
    intro b
    by_cases ha : a = 0
    · subst ha; rw [extended_gcd_zero]; simp
    · rw [extended_gcd_pos a b ha]
      have hlt : b % a < a := Nat.mod_lt _ (Nat.pos_of_ne_zero ha)
      have key : (b : Int) = (a : Int) * ((b / a : Nat) : Int) + ((b % a : Nat) : Int) := by
        exact_mod_cast (Nat.div_add_mod b a).symm
      have hih := ih (b % a) hlt a
      show (a : Int) * ((extended_gcd (b % a) a).2.2
          - ((b / a : Nat) : Int) * (extended_gcd (b % a) a).2.1)
          + (b : Int) * (extended_gcd (b % a) a).2.1
        = ((extended_gcd (b % a) a).1 : Int)
      linear_combination hih + (extended_gcd (b % a) a).2.1 * key

/-! ### Specification of `mod_inverse` -/

/-- `mod_inverse` fails exactly when the arguments are not coprime. -/
theorem mod_inverse_none_iff (a m : Nat) :
    mod_inverse a m = none ↔ Nat.gcd a m ≠ 1 := by
  simp only [mod_inverse, extended_gcd_fst a m]
  split <;> simp_all

theorem mod_inverse_isSome (a m : Nat) (h : Nat.gcd a m = 1) :
    mod_inverse a m = some (((extended_gcd a m).2.1 % (m : Int)).toNat) := by
  simp [mod_inverse, extended_gcd_fst a m, h]

/-- Any value returned by `mod_inverse a m` with `m > 1` is a genuine
modular inverse of `a`, reduced to `[0, m)`. -/
theorem mod_inverse_some_spec (a m x : Nat) (hm : 1 < m)
    (h : mod_inverse a m = some x) : x < m ∧ (a * x) % m = 1 := by
  have hg : Nat.gcd a m = 1 := by
    by_contra hg
    rw [(mod_inverse_none_iff a m).mpr hg] at h
    exact Option.noConfusion h
  rw [mod_inverse_isSome a m hg] at h
  have hx : x = ((extended_gcd a m).2.1 % (m : Int)).toNat := (Option.some_inj.mp h).symm
  set X : Int := (extended_gcd a m).2.1 with hX
  set Y : Int := (extended_gcd a m).2.2 with hY
  have hb : (a : Int) * X + (m : Int) * Y = 1 := by
    have := extended_gcd_bezout a m
    rw [extended_gcd_fst a m, hg] at this
    simpa using this
  have hm0 : (0 : Int) < (m : Int) := by exact_mod_cast Nat.lt_of_lt_of_le Nat.zero_lt_one hm.le
  have hnn : 0 ≤ X % (m : Int) := Int.emod_nonneg X (ne_of_gt hm0)
  have hcast : ((x : Nat) : Int) = X % (m : Int) := by
    rw [hx]; exact Int.toNat_of_nonneg hnn
  constructor
  · have : (x : Int) < (m : Int) := by rw [hcast]; exact Int.emod_lt_of_pos X hm0
    exact_mod_cast this
  · have h1 : ((a * x : Nat) : Int) % (m : Int) = 1 := by
      push_cast
      rw [hcast, Int.mul_emod, Int.emod_emod_of_dvd X dvd_rfl, ← Int.mul_emod]
      have haX : (a : Int) * X = 1 - (m : Int) * Y := by linarith
      rw [haX]
      have : (1 - (m : Int) * Y) % (m : Int) = 1 % (m : Int) := by
        conv_rhs => rw [show (1 : Int) = 1 - (m : Int) * Y + (m : Int) * Y by ring]
        rw [Int.add_mul_emod_self_left]
      rw [this]
      exact Int.emod_eq_of_lt (by norm_num) (by exact_mod_cast hm)
    have h2 : (((a * x) % m : Nat) : Int) = (1 : Int) := by
      push_cast
      push_cast at h1
      exact h1
    exact_mod_cast h2

/-! ### Structural lemmas about the solver -/

theorem alt_check_mul {N g p q : Nat} (h : alt_check N g = some (p, q)) :
    p * q = N := by
  unfold alt_check at h
  split at h
  · rename_i hcond
    simp only [Option.some.injEq, Prod.mk.injEq] at h
    obtain ⟨rfl, rfl⟩ := h.symm
    exact hcond.2.2
  · exact absurd h (by simp)

theorem solve_alt_stage_mul {N e1 e2 c1 c2 p q : Nat}
    (h : solve_alt_stage N e1 e2 c1 c2 = some (p, q)) : p * q = N := by
  unfold solve_alt_stage at h
  split at h
  · exact alt_check_mul h
  · exact absurd h (by simp)

theorem solve_tail_mul {N e1 e2 c1 c2 g p q : Nat}
    (h : solve_tail N e1 e2 c1 c2 g = some (p, q)) : p * q = N := by
  unfold solve_tail at h
  split at h
  · rename_i hcond
    simp only [Option.some.injEq, Prod.mk.injEq] at h
    obtain ⟨rfl, rfl⟩ := h.symm
    exact hcond.2.2
  · split at h
    · rename_i hswap
      simp only [Option.some.injEq, Prod.mk.injEq] at h
      obtain ⟨rfl, rfl⟩ := h.symm
      exact hswap
    · exact solve_alt_stage_mul h

/-- Every pair the solver returns multiplies back to `N`. -/
theorem solve_for_primes_mul {N e1 e2 c1 c2 p q : Nat}
    (h : solve_for_primes N e1 e2 c1 c2 = some (p, q)) : p * q = N := by
  unfold solve_for_primes at h
  split at h
  · exact solve_tail_mul h
  · exact absurd h (by simp)

/-- When the stage-1 inverses fail, the solver returns immediately. -/
theorem solve_for_primes_none_of_inv_failure {N e1 e2 c1 c2 : Nat}
    (h : mod_inverse 2 N = none ∨ mod_inverse 5 N = none) :
    solve_for_primes N e1 e2 c1 c2 = none := by
  unfold solve_for_primes
  rcases h with h | h
  · rw [h]
  · cases h2 : mod_inverse 2 N <;> rw [h]

/-- When both stage-1 inverses exist and the candidate passes the
divisibility checks, stage 1 returns `(N / candidate, candidate)`. -/
theorem solve_for_primes_stage1 {N e1 e2 c1 c2 i1 i2 g : Nat}
    (h1 : mod_inverse 2 N = some i1) (h2 : mod_inverse 5 N = some i2)
    (hg : stage1_candidate N e1 e2 c1 c2 i1 i2 = g)
    (hg1 : 1 < g) (hdvd : N % g = 0) (hmul : (N / g) * g = N) :
    solve_for_primes N e1 e2 c1 c2 = some (N / g, g) := by
  unfold solve_for_primes
  rw [h1, h2]
  show solve_tail N e1 e2 c1 c2 (stage1_candidate N e1 e2 c1 c2 i1 i2) = _
  rw [hg]
  unfold solve_tail
  rw [if_pos ⟨hg1, hdvd, hmul⟩]

/-- When both stage-1 inverses exist and the candidate is trivial
(`1` or `N`), the solver still succeeds, returning `(1, N)`. -/
theorem solve_for_primes_trivial {N e1 e2 c1 c2 i1 i2 g : Nat} (hN : 1 < N)
    (h1 : mod_inverse 2 N = some i1) (h2 : mod_inverse 5 N = some i2)
    (hg : stage1_candidate N e1 e2 c1 c2 i1 i2 = g)
    (hcase : g = 1 ∨ g = N) :
    solve_for_primes N e1 e2 c1 c2 = some (1, N) := by
  unfold solve_for_primes
  rw [h1, h2]
  show solve_tail N e1 e2 c1 c2 (stage1_candidate N e1 e2 c1 c2 i1 i2) = _
  rw [hg]
  rcases hcase with h | h <;> rw [h] <;> unfold solve_tail
  · rw [if_neg (fun hc => absurd hc.1 (lt_irrefl 1)), if_pos (by simp [Nat.div_one])]
    simp [Nat.div_one]
  · rw [if_pos ⟨hN, Nat.mod_self N, by
        rw [Nat.div_self (by omega : 0 < N), one_mul]⟩]
    rw [Nat.div_self (by omega : 0 < N)]

/-! ### Stage 1 isolates `q` when `e1 = e2 = 1` -/

/-- Evaluation of `stage1_candidate` at exponents `e1 = e2 = 1`: both
modular powers collapse and the candidate is
`gcd((i2*c2 - i1*c1) % N, N)`. -/
theorem stage1_candidate_one (N c1 c2 i1 i2 : Nat) (hN : 2 < N)
    (hi1 : i1 < N) (hi2 : i2 < N) (hc1 : c1 < N) (hc2 : c2 < N) :
    stage1_candidate N 1 1 c1 c2 i1 i2 =
      Nat.gcd ((((i2 * c2 % N : Nat) : Int) - ((i1 * c1 % N : Nat) : Int))
        % (N : Int)).toNat N := by
  simp only [stage1_candidate]
  rw [Nat.mod_eq_of_lt (show 1 * 1 < N - 1 by omega)]
  rw [one_mul, pow_one, pow_one, pow_one, pow_one]
  rw [Nat.mod_eq_of_lt hi2, Nat.mod_eq_of_lt hi1,
    Nat.mod_eq_of_lt hc2, Nat.mod_eq_of_lt hc1]

/-- The heart of the attack at exponent 1: with `c1 = (2p+3q) % N`,
`c2 = (5p+7q) % N` and genuine inverses `i1` of 2 and `i2` of 5, the
stage-1 gcd candidate is exactly `q`.  Indeed `10·(i2·c2 − i1·c1) ≡
2·(5p+7q) − 5·(2p+3q) = −q (mod N)`, so the difference is divisible by
`q` but not by `p`. -/
theorem stage1_candidate_eq_q
    (p q : Nat) (hp : p.Prime) (hq : q.Prime) (hpq : p ≠ q)
    (hq2 : Nat.Coprime q 2) (hq5 : Nat.Coprime q 5)
    (i1 i2 : Nat) (hN2 : 2 < p * q)
    (hi1 : i1 < p * q) (hi2 : i2 < p * q)
    (h2i : (2 * i1) % (p * q) = 1) (h5i : (5 * i2) % (p * q) = 1) :
    stage1_candidate (p * q) 1 1 ((2 * p + 3 * q) % (p * q))
      ((5 * p + 7 * q) % (p * q)) i1 i2 = q := by
  have hN0 : 0 < p * q := by omega
  have hc1lt : (2 * p + 3 * q) % (p * q) < p * q := Nat.mod_lt _ hN0
  have hc2lt : (5 * p + 7 * q) % (p * q) < p * q := Nat.mod_lt _ hN0
  rw [stage1_candidate_one _ _ _ _ _ hN2 hi1 hi2 hc1lt hc2lt]
  set N : Nat := p * q with hNdef
  set C1 : Nat := (2 * p + 3 * q) % N with hC1
  set C2 : Nat := (5 * p + 7 * q) % N with hC2
  set X : Int := (i2 : Int) * (C2 : Int) with hX
  set Y : Int := (i1 : Int) * (C1 : Int) with hY
  set d : Int := (((i2 * C2 % N : Nat) : Int) - ((i1 * C1 % N : Nat) : Int)) % (N : Int)
    with hd
  have hNpos : (0 : Int) < (N : Int) := by exact_mod_cast hN0
  have hd_nonneg : 0 ≤ d := Int.emod_nonneg _ (ne_of_gt hNpos)
  -- d ≡ X - Y (mod N)
  have hcast2 : ((i2 * C2 % N : Nat) : Int) = X % (N : Int) := by push_cast; rfl
  have hcast1 : ((i1 * C1 % N : Nat) : Int) = Y % (N : Int) := by push_cast; rfl
  have m1 : X % (N : Int) ≡ X [ZMOD (N : Int)] := Int.emod_emod_of_dvd X dvd_rfl
  have m2 : Y % (N : Int) ≡ Y [ZMOD (N : Int)] := Int.emod_emod_of_dvd Y dvd_rfl
  have m4 : d ≡ X - Y [ZMOD (N : Int)] := by
    have h0 : d ≡ X % (N : Int) - Y % (N : Int) [ZMOD (N : Int)] := by
      rw [hd, hcast2, hcast1]
      exact Int.emod_emod_of_dvd _ dvd_rfl
    exact h0.trans (m1.sub m2)
  -- the two inverse congruences
  have hmod1 : (1 : Int) % (N : Int) = 1 :=
    Int.emod_eq_of_lt (by norm_num) (by exact_mod_cast (show 1 < N by omega))
  have h2i'' : (2 * (i1 : Int)) ≡ 1 [ZMOD (N : Int)] := by
    show (2 * (i1 : Int)) % (N : Int) = 1 % (N : Int)
    rw [hmod1]
    exact_mod_cast h2i
  have h5i'' : (5 * (i2 : Int)) ≡ 1 [ZMOD (N : Int)] := by
    show (5 * (i2 : Int)) % (N : Int) = 1 % (N : Int)
    rw [hmod1]
    exact_mod_cast h5i
  -- the ciphertext congruences
  have hc1c : (C1 : Int) ≡ 2 * (p : Int) + 3 * (q : Int) [ZMOD (N : Int)] := by
    show (C1 : Int) % (N : Int) = (2 * (p : Int) + 3 * (q : Int)) % (N : Int)
    rw [hC1]
    push_cast
    exact Int.emod_emod_of_dvd _ dvd_rfl
  have hc2c : (C2 : Int) ≡ 5 * (p : Int) + 7 * (q : Int) [ZMOD (N : Int)] := by
    show (C2 : Int) % (N : Int) = (5 * (p : Int) + 7 * (q : Int)) % (N : Int)
    rw [hC2]
    push_cast
    exact Int.emod_emod_of_dvd _ dvd_rfl
  -- 10·d ≡ −q (mod N)
  have ten : (10 : Int) * d ≡ -(q : Int) [ZMOD (N : Int)] := by
    have s1 : (10 : Int) * d ≡ 10 * (X - Y) [ZMOD (N : Int)] := m4.mul_left 10
    have s3 : (2 * (C2 : Int)) * (5 * (i2 : Int)) ≡ (2 * (C2 : Int)) * 1 [ZMOD (N : Int)] :=
      Int.ModEq.mul_left _ h5i''
    have s4 : (5 * (C1 : Int)) * (2 * (i1 : Int)) ≡ (5 * (C1 : Int)) * 1 [ZMOD (N : Int)] :=
      Int.ModEq.mul_left _ h2i''
    have s5 : 10 * (X - Y) ≡ 2 * (C2 : Int) - 5 * (C1 : Int) [ZMOD (N : Int)] := by
      have heq : 10 * (X - Y)
          = (2 * (C2 : Int)) * (5 * (i2 : Int)) - (5 * (C1 : Int)) * (2 * (i1 : Int)) := by
        rw [hX, hY]; ring
      have heq2 : (2 * (C2 : Int)) * 1 - (5 * (C1 : Int)) * 1
          = 2 * (C2 : Int) - 5 * (C1 : Int) := by ring
      rw [heq, ← heq2]
      exact s3.sub s4
    have s6 : 2 * (C2 : Int) - 5 * (C1 : Int)
        ≡ 2 * (5 * (p : Int) + 7 * (q : Int)) - 5 * (2 * (p : Int) + 3 * (q : Int))
          [ZMOD (N : Int)] := (hc2c.mul_left 2).sub (hc1c.mul_left 5)
    have s7 : 2 * (5 * (p : Int) + 7 * (q : Int)) - 5 * (2 * (p : Int) + 3 * (q : Int))
        = -(q : Int) := by ring
    exact s1.trans (s5.trans (s7 ▸ s6))
  -- q divides d, p does not
  have hqdvdN : (q : Int) ∣ (N : Int) := ⟨(p : Int), by push_cast [hNdef]; ring⟩
  have hpdvdN : (p : Int) ∣ (N : Int) := ⟨(q : Int), by push_cast [hNdef]; ring⟩
  have hqd : (q : Int) ∣ d := by
    have t1 : (10 : Int) * d ≡ -(q : Int) [ZMOD (q : Int)] := ten.of_dvd hqdvdN
    have t2 : (q : Int) ∣ -(q : Int) - 10 * d := t1.dvd
    have t3 : (q : Int) ∣ 10 * d := by
      have hneg : (q : Int) ∣ -(q : Int) := dvd_neg.mpr dvd_rfl
      have := dvd_sub hneg t2
      simpa using this
    have hcop : IsCoprime (q : Int) (10 : Int) := by
      have h10 : Nat.Coprime q 10 := Nat.Coprime.mul_right hq2 hq5
      exact Nat.isCoprime_iff_coprime.mpr h10
    exact hcop.dvd_of_dvd_mul_left t3
  have hpd : ¬ (p : Int) ∣ d := by
    intro hpdd
    have u1 : (10 : Int) * d ≡ -(q : Int) [ZMOD (p : Int)] := ten.of_dvd hpdvdN
    have u2 : (p : Int) ∣ -(q : Int) - 10 * d := u1.dvd
    have u3 : (p : Int) ∣ 10 * d := Dvd.dvd.mul_left hpdd 10
    have u4 : (p : Int) ∣ -(q : Int) := by
      have := dvd_add u2 u3
      simpa using this
    have u5 : p ∣ q := by exact_mod_cast dvd_neg.mp u4
    rcases hq.eq_one_or_self_of_dvd p u5 with h1 | h1
    · exact absurd h1 hp.one_lt.ne'
    · exact hpq h1
  -- transfer to Nat and identify the gcd
  have htn : ((d.toNat : Nat) : Int) = d := Int.toNat_of_nonneg hd_nonneg
  have hDq : q ∣ d.toNat := by
    have h' : (q : Int) ∣ ((d.toNat : Nat) : Int) := by rw [htn]; exact hqd
    exact_mod_cast h'
  have hDp : ¬ p ∣ d.toNat := by
    intro h
    apply hpd
    rw [← htn]
    exact_mod_cast h
  have hgN : Nat.gcd d.toNat N ∣ N := Nat.gcd_dvd_right _ _
  have hqg : q ∣ Nat.gcd d.toNat N :=
    Nat.dvd_gcd hDq (by rw [hNdef]; exact dvd_mul_left q p)
  have hpg : ¬ p ∣ Nat.gcd d.toNat N := fun h => hDp (h.trans (Nat.gcd_dvd_left _ _))
  obtain ⟨k, hk⟩ := hqg
  have hkp : k ∣ p := by
    have hqk : q * k ∣ q * p := by
      rw [← hk, show q * p = N by rw [hNdef, Nat.mul_comm]]
      exact hgN
    exact (Nat.mul_dvd_mul_iff_left hq.pos).mp hqk
  rcases hp.eq_one_or_self_of_dvd k hkp with h1 | h1
  · rw [hk, h1, mul_one]
  · exact absurd (by rw [hk, h1]; exact dvd_mul_left p q) hpg

/-- Both components of any returned pair are positive when `N > 1`. -/
theorem solve_for_primes_pos {N e1 e2 c1 c2 p q : Nat} (hN : 1 < N)
    (h : solve_for_primes N e1 e2 c1 c2 = some (p, q)) : 0 < p ∧ 0 < q := by
  have hm := solve_for_primes_mul h
  constructor
  · rcases Nat.eq_zero_or_pos p with h0 | h0
    · subst h0; rw [zero_mul] at hm; omega
    · exact h0
  · rcases Nat.eq_zero_or_pos q with h0 | h0
    · subst h0; rw [mul_zero] at hm; omega
    · exact h0

/-- Assembled correctness at exponents `e1 = e2 = 1`: for a genuine
modular-binomials instance the solver returns `(p, q)`. -/
theorem solve_exp_one_correct
    (p q : Nat) (hp : p.Prime) (hq : q.Prime) (hpq : p ≠ q)
    (hp2 : Nat.Coprime p 2) (hp5 : Nat.Coprime p 5)
    (hq2 : Nat.Coprime q 2) (hq5 : Nat.Coprime q 5) :
    solve_for_primes (p * q) 1 1 ((2 * p + 3 * q) % (p * q))
      ((5 * p + 7 * q) % (p * q)) = some (p, q) := by
  have hpne2 : p ≠ 2 := by
    intro h; rw [h] at hp2; norm_num [Nat.Coprime] at hp2
  have hqne2 : q ≠ 2 := by
    intro h; rw [h] at hq2; norm_num [Nat.Coprime] at hq2
  have hp3 : 3 ≤ p := by have := hp.two_le; omega
  have hq3 : 3 ≤ q := by have := hq.two_le; omega
  have hN9 : 9 ≤ p * q := by
    calc 9 = 3 * 3 := rfl
    _ ≤ p * q := Nat.mul_le_mul hp3 hq3
  have hN2 : 2 < p * q := by omega
  have hN1 : 1 < p * q := by omega
  have hg2 : Nat.gcd 2 (p * q) = 1 := Nat.Coprime.mul_right hp2.symm hq2.symm
  have hg5 : Nat.gcd 5 (p * q) = 1 := Nat.Coprime.mul_right hp5.symm hq5.symm
  have h1 := mod_inverse_isSome 2 (p * q) hg2
  have h2 := mod_inverse_isSome 5 (p * q) hg5
  set i1 : Nat := ((extended_gcd 2 (p * q)).2.1 % ((p * q : Nat) : Int)).toNat with hi1def
  set i2 : Nat := ((extended_gcd 5 (p * q)).2.1 % ((p * q : Nat) : Int)).toNat with hi2def
  have hs1 := mod_inverse_some_spec 2 (p * q) i1 hN1 h1
  have hs2 := mod_inverse_some_spec 5 (p * q) i2 hN1 h2
  have hcand : stage1_candidate (p * q) 1 1 ((2 * p + 3 * q) % (p * q))
      ((5 * p + 7 * q) % (p * q)) i1 i2 = q :=
    stage1_candidate_eq_q p q hp hq hpq hq2 hq5 i1 i2 hN2 hs1.1 hs2.1 hs1.2 hs2.2
  have hqdvd : q ∣ p * q := dvd_mul_left q p
  have hres := solve_for_primes_stage1 h1 h2 hcand hq.one_lt
    (Nat.mod_eq_zero_of_dvd hqdvd) (Nat.div_mul_cancel hqdvd)
  rw [Nat.mul_div_cancel _ hq.pos] at hres
  exact hres

/-! ### Claims -/

/-- C1, counterexample: the claim fails as stated.  For the genuine
instance `N = 11·13`, `e1 = 3`, `e2 = 4`, with both primes coprime to
2, 3, 5 and 7 and ciphertexts built per the defining equations, the
solver returns the trivial pair `(1, 143)` — the exponent heuristic
`(e1·e2) mod (N−1)` does not reproduce the inverse powers, the stage-1
gcd is 1, and the swap stage accepts `(1, N)`. -/
theorem solve_misses_factors_counterexample :
    Nat.Prime 13 ∧ Nat.Prime 11 ∧
      Nat.Coprime 13 2 ∧ Nat.Coprime 13 3 ∧ Nat.Coprime 13 5 ∧ Nat.Coprime 13 7 ∧
      Nat.Coprime 11 2 ∧ Nat.Coprime 11 3 ∧ Nat.Coprime 11 5 ∧ Nat.Coprime 11 7 ∧
      solve_for_primes (13 * 11) 3 4 ((2 * 13 + 3 * 11) ^ 3 % (13 * 11))
        ((5 * 13 + 7 * 11) ^ 4 % (13 * 11)) = some (1, 143) ∧
      some ((1 : Nat), (143 : Nat)) ≠ some (13, 11) ∧
      some ((1 : Nat), (143 : Nat)) ≠ some (11, 13) := by decide

/-- C1 (amended): for every `N = p·q` with `p, q` distinct primes each
coprime to 2, 3, 5 and 7, and ciphertexts constructed per the defining
equations **with exponents `e1 = e2 = 1`**, `solve_for_primes` returns
`(p, q)` or `(q, p)`.  (The counterexample above shows the claim is
false for general exponents; at exponent 1 the heuristic exponent
`(e1·e2) mod (N−1)` equals the true exponent and the attack works.) -/
theorem solve_returns_prime_pair_exp_one
    (p q : Nat) (hp : p.Prime) (hq : q.Prime) (hpq : p ≠ q)
    (hp2 : Nat.Coprime p 2) (_hp3 : Nat.Coprime p 3)
    (hp5 : Nat.Coprime p 5) (_hp7 : Nat.Coprime p 7)
    (hq2 : Nat.Coprime q 2) (_hq3 : Nat.Coprime q 3)
    (hq5 : Nat.Coprime q 5) (_hq7 : Nat.Coprime q 7) :
    solve_for_primes (p * q) 1 1 ((2 * p + 3 * q) ^ 1 % (p * q))
        ((5 * p + 7 * q) ^ 1 % (p * q)) = some (p, q) ∨
      solve_for_primes (p * q) 1 1 ((2 * p + 3 * q) ^ 1 % (p * q))
        ((5 * p + 7 * q) ^ 1 % (p * q)) = some (q, p) := by
  left
  simp only [pow_one]
  exact solve_exp_one_correct p q hp hq hpq hp2 hp5 hq2 hq5

/-- Witness for C1 at the spec's concrete scenario `N = 3233 = 61·53`. -/
theorem solve_returns_prime_pair_exp_one_witness :
    solve_for_primes (61 * 53) 1 1 ((2 * 61 + 3 * 53) ^ 1 % (61 * 53))
        ((5 * 61 + 7 * 53) ^ 1 % (61 * 53)) = some (61, 53) ∨
      solve_for_primes (61 * 53) 1 1 ((2 * 61 + 3 * 53) ^ 1 % (61 * 53))
        ((5 * 61 + 7 * 53) ^ 1 % (61 * 53)) = some (53, 61) :=
  solve_returns_prime_pair_exp_one 61 53 (by norm_num) (by norm_num) (by decide)
    (by decide) (by decide) (by decide) (by decide)
    (by decide) (by decide) (by decide) (by decide)

/-- C2: whenever `solve_for_primes` returns a pair — from any of the
three stages — its product is exactly `N`. -/
theorem solve_roundtrip_product (N e1 e2 c1 c2 p q : Nat) (_hN : 1 < N)
    (h : solve_for_primes N e1 e2 c1 c2 = some (p, q)) : p * q = N :=
  solve_for_primes_mul h

theorem solve_roundtrip_product_witness : (1 : Nat) < 9 ∧ (1 : Nat) * 9 = 9 :=
  ⟨by decide, solve_roundtrip_product 9 1 1 0 0 1 9 (by decide) (by decide)⟩

/-- C3, counterexample: the claim that every returned pair consists of
two nontrivial factors (neither component 1 nor `N`) is false: on
`N = 9`, `c1 = c2 = 0` the stage-1 candidate is `gcd(0, 9) = 9 = N`,
which stage 1 accepts (the acceptance test has no upper bound), and the
solver returns `(1, 9)`. -/
theorem solve_trivial_pair_counterexample :
    solve_for_primes 9 1 1 0 0 = some (1, 9) ∧
      ((1 : Nat) = 1 ∨ (1 : Nat) = 9 ∨ (9 : Nat) = 1 ∨ (9 : Nat) = 9) := by decide

/-- C3 (amended): the stage-1/alternate acceptance tests only check
`1 < candidate` and `candidate ∣ N` — `candidate = N` is accepted, and
the swap stage accepts candidate 1 — so a returned pair is only
guaranteed to be a pair of positive divisors of `N`; it may be the
trivial pair `(1, N)`. -/
theorem solve_components_positive_divisors (N e1 e2 c1 c2 p q : Nat) (hN : 1 < N)
    (h : solve_for_primes N e1 e2 c1 c2 = some (p, q)) :
    0 < p ∧ 0 < q ∧ p ∣ N ∧ q ∣ N := by
  have hm := solve_for_primes_mul h
  have hpos := solve_for_primes_pos hN h
  exact ⟨hpos.1, hpos.2, ⟨q, hm.symm⟩, ⟨p, by rw [← hm]; ring⟩⟩

theorem solve_components_positive_divisors_witness :
    (1 : Nat) < 9 ∧ (0 < 1 ∧ 0 < 9 ∧ (1 : Nat) ∣ 9 ∧ (9 : Nat) ∣ 9) :=
  ⟨by decide, solve_components_positive_divisors 9 1 1 0 0 1 9 (by decide) (by decide)⟩

/-- C4, counterexample: the claim that a primary-stage `mod_inverse`
failure skips to the next strategy and in particular still attempts the
alternate b-coefficient stage is false.  On the genuine even instance
`N = 22 = 2·11` (ciphertexts per the defining equations with
`e1 = e2 = 1`) the inverse of 2 mod 22 fails and the solver returns
`(None, None)` at once, even though the alternate stage — run on the
same input — would succeed with `(2, 11)`. -/
theorem solve_skips_alt_stage_counterexample :
    mod_inverse 2 22 = none ∧
      solve_for_primes 22 1 1 15 21 = none ∧
      solve_alt_stage 22 1 1 15 21 = some (2, 11) ∧
      (2 * 2 + 3 * 11) ^ 1 % 22 = 15 ∧ (5 * 2 + 7 * 11) ^ 1 % 22 = 21 ∧
      Nat.Prime 2 ∧ Nat.Prime 11 ∧ 2 * 11 = 22 := by decide

/-- C4 (amended): when `mod_inverse` fails on coefficient 2 or 5 in the
primary stage, the solver does not crash but returns `(None, None)`
immediately, without attempting the swap or alternate-coefficient
stages. -/
theorem solve_none_on_primary_inverse_failure (N e1 e2 c1 c2 : Nat)
    (h : mod_inverse 2 N = none ∨ mod_inverse 5 N = none) :
    solve_for_primes N e1 e2 c1 c2 = none :=
  solve_for_primes_none_of_inv_failure h

theorem solve_none_on_primary_inverse_failure_witness :
    solve_for_primes 10 1 1 0 0 = none :=
  solve_none_on_primary_inverse_failure 10 1 1 0 0 (Or.inl (by decide))

/-- C5: for `m > 1`, `mod_inverse a m` fails iff `gcd(a, m) ≠ 1`, and
when `a` is coprime to `m` it returns an `x` with `0 ≤ x < m` and
`(a·x) mod m = 1`. -/
theorem mod_inverse_contract (a m : Nat) (hm : 1 < m) :
    (mod_inverse a m = none ↔ Nat.gcd a m ≠ 1) ∧
      (Nat.gcd a m = 1 →
        ∃ x, mod_inverse a m = some x ∧ x < m ∧ (a * x) % m = 1) := by
  refine ⟨mod_inverse_none_iff a m, fun h => ?_⟩
  exact ⟨_, mod_inverse_isSome a m h,
    mod_inverse_some_spec a m _ hm (mod_inverse_isSome a m h)⟩

theorem mod_inverse_contract_witness :
    (mod_inverse 3 7 = none ↔ Nat.gcd 3 7 ≠ 1) ∧
      (Nat.gcd 3 7 = 1 →
        ∃ x, mod_inverse 3 7 = some x ∧ x < 7 ∧ (3 * x) % 7 = 1) :=
  mod_inverse_contract 3 7 (by decide)

/-- C6: `extended_gcd a b` returns `(g, x, y)` with `g = gcd(a, b)` and
`a·x + b·y = g`, and in the base case `a = 0` it returns `(b, 0, 1)`. -/
theorem extended_gcd_contract (a b : Nat) :
    (extended_gcd a b).1 = Nat.gcd a b ∧
      (a : Int) * (extended_gcd a b).2.1 + (b : Int) * (extended_gcd a b).2.2
        = ((extended_gcd a b).1 : Int) ∧
      extended_gcd 0 b = (b, 0, 1) :=
  ⟨extended_gcd_fst a b, extended_gcd_bezout a b, extended_gcd_zero b⟩

/-- C7: whenever the primary stage's candidate passes `1 < g`,
`N % g = 0` and `(N/g)·g = N`, the solver returns `(N/g, g)`
unconditionally — no hypothesis about the recomputed ciphertexts
`(2p+3q)^e1 mod N` / `(5p+7q)^e2 mod N` matching `c1`/`c2` is needed,
because that secondary cross-check only feeds logging, never the
return value. -/
theorem stage1_acceptance_unconditional (N e1 e2 c1 c2 i1 i2 g : Nat)
    (h1 : mod_inverse 2 N = some i1) (h2 : mod_inverse 5 N = some i2)
    (hg : stage1_candidate N e1 e2 c1 c2 i1 i2 = g)
    (hg1 : 1 < g) (hdvd : N % g = 0) (hmul : (N / g) * g = N) :
    solve_for_primes N e1 e2 c1 c2 = some (N / g, g) :=
  solve_for_primes_stage1 h1 h2 hg hg1 hdvd hmul

theorem stage1_acceptance_unconditional_witness :
    solve_for_primes 143 1 1 61 3 = some (11, 13) :=
  stage1_acceptance_unconditional 143 1 1 61 3 72 86 13 (by decide) (by decide)
    (by decide) (by decide) (by decide) (by decide)

/-- C8: when the stage-1 inverses exist and the candidate
`gcd((term1 − term2) mod N, N)` is trivial — equal to 1 or to `N` —
the solver still reports success with the trivial pair `(1, N)`
(from stage 1 when the candidate is `N`, from the swap stage when it
is 1) instead of returning `(None, None)`. -/
theorem trivial_candidate_returns_trivial_pair (N e1 e2 c1 c2 i1 i2 g : Nat)
    (hN : 1 < N)
    (h1 : mod_inverse 2 N = some i1) (h2 : mod_inverse 5 N = some i2)
    (hg : stage1_candidate N e1 e2 c1 c2 i1 i2 = g)
    (hcase : g = 1 ∨ g = N) :
    solve_for_primes N e1 e2 c1 c2 = some (1, N) :=
  solve_for_primes_trivial hN h1 h2 hg hcase

theorem trivial_candidate_returns_trivial_pair_witness :
    solve_for_primes 21 1 1 0 0 = some (1, 21) :=
  trivial_candidate_returns_trivial_pair 21 1 1 0 0 11 17 21 (by decide)
    (by decide) (by decide) (by decide) (Or.inr (by decide))

/-- C9: the solver is a total function (the shallow embedding needs no
partiality: both `mod_inverse` failure sites are caught, every division
has a positive divisor on the paths reached with `N > 1`), and its
result is either `(None, None)` or a pair of positive integers. -/
theorem solve_no_uncaught_exception (N e1 e2 c1 c2 : Nat) (hN : 1 < N) :
    solve_for_primes N e1 e2 c1 c2 = none ∨
      ∃ p q, solve_for_primes N e1 e2 c1 c2 = some (p, q) ∧ 0 < p ∧ 0 < q := by
  cases h : solve_for_primes N e1 e2 c1 c2 with
  | none => exact Or.inl rfl
  | some r =>
    obtain ⟨p, q⟩ := r
    have hpos := solve_for_primes_pos hN h
    exact Or.inr ⟨p, q, rfl, hpos.1, hpos.2⟩

theorem solve_no_uncaught_exception_witness :
    solve_for_primes 9 1 1 0 0 = none ∨
      ∃ p q, solve_for_primes 9 1 1 0 0 = some (p, q) ∧ 0 < p ∧ 0 < q :=
  solve_no_uncaught_exception 9 1 1 0 0 (by decide)

/-- C10: termination.  `extended_gcd`'s recursion measure decreases
(`b % a < a` for `a > 0`), its defining equations hold of the total
function embedded here, and the solver — a fixed sequence of three
stages with no loops — always yields a value. -/
theorem solver_terminates (N e1 e2 c1 c2 a b : Nat) :
    ((0 < a → b % a < a) ∧
      extended_gcd a b = (if a = 0 then ((b : Nat), (0 : Int), (1 : Int)) else
        ((extended_gcd (b % a) a).1,
         (extended_gcd (b % a) a).2.2
           - ((b / a : Nat) : Int) * (extended_gcd (b % a) a).2.1,
         (extended_gcd (b % a) a).2.1))) ∧
      ∃ r : Option (Nat × Nat), solve_for_primes N e1 e2 c1 c2 = r := by
  refine ⟨⟨fun ha => Nat.mod_lt _ ha, ?_⟩, ⟨_, rfl⟩⟩
  by_cases ha : a = 0
  · subst ha; rw [if_pos rfl]; exact extended_gcd_zero b
  · rw [if_neg ha]; exact extended_gcd_pos a b ha

theorem solver_terminates_witness :
    ((0 < 5 → 3 % 5 < 5) ∧
      extended_gcd 5 3 = (if (5 : Nat) = 0 then ((3 : Nat), (0 : Int), (1 : Int)) else
        ((extended_gcd (3 % 5) 5).1,
         (extended_gcd (3 % 5) 5).2.2
           - ((3 / 5 : Nat) : Int) * (extended_gcd (3 % 5) 5).2.1,
         (extended_gcd (3 % 5) 5).2.1))) ∧
      ∃ r : Option (Nat × Nat), solve_for_primes 9 1 1 0 0 = r :=
  solver_terminates 9 1 1 0 0 5 3

end ModularBinomials
